import Mathlib

/-!
Shallow embedding of the two visualization utilities of this repository
(`scripts/detections2images.py` and `scripts/extract_learning_curve.py`)
together with proofs about the embedded operations.

Machine integers are modelled as `Nat`/`Int` (no overflow is relevant here),
parsed decimal literals as exact rationals (`Rat`) plus an explicit `nan`
constructor (the scripts never perform arithmetic on the parsed values, they
only store and emit them), and fallible code as `Option`/`Except`.
-/

/-! ## Learning curve extractor: skip logic (`LearningCurvePlotter.plot_and_save`) -/

/-- Embeds the skip-index loop of `plot_and_save` (extract_learning_curve.py,
lines 133-140): `for i in range(len(iters)): if iters[i] > skip: break; si = i`.
`i` is the running index and `si` the accumulator (initially 0). -/
def siAux (skip : Int) : List Nat → Nat → Nat → Nat
  | [], _, si => si
  | x :: xs, i, si => if skip < (x : Int) then si else siAux skip xs (i + 1) i

/-- Embeds the whole skip-index computation of `plot_and_save`: the index is 0
unless `skip > 0`, in which case the loop above runs over the iteration list. -/
def skipIndex (iters : List Nat) (skip : Int) : Nat :=
  if 0 < skip then siAux skip iters 0 0 else 0

/-- Modelled from the spec: "the starting index into the training sequence is
the last index whose iteration value is ≤ N (default 0)".  This definition
follows the spec's words and is compared with `skipIndex`, which follows the
code. -/
def specStartIndex (iters : List Nat) (skip : Int) : Nat :=
  (((iters.enum).filter (fun p => decide ((p.2 : Int) ≤ skip))).map Prod.fst).getLast?.getD 0

/-- Length of the maximal prefix of the list whose values are `≤ skip`; used to
relate `siAux` and `specStartIndex`. -/
def leadLE (skip : Int) : List Nat → Nat
  | [] => 0
  | x :: xs => if (x : Int) ≤ skip then leadLE skip xs + 1 else 0

/-! ## Learning curve extractor: log scanner (`LearningCurvePlotter._process_log_file`) -/

/-- Value stored for a metric: `float()` of the matched token.  The scripts
never compute with these values, so a parsed decimal literal is embedded as an
exact rational and the `nan`/`-nan` tokens as an explicit `nan` marker. -/
inductive Val where
  | num (q : Rat)
  | nan
deriving DecidableEq, Repr

/-- Numeric value of a digit string (the regex groups only ever capture
characters `0`-`9`). -/
def natOfDigits (l : List Char) : Nat :=
  l.foldl (fun a c => 10 * a + (c.toNat - '0'.toNat)) 0

/-- Exact rational denoted by `<int part>.<frac part>` (the fractional part may
be empty). -/
def ratOfDigits (d1 d2 : List Char) : Rat :=
  (natOfDigits d1 : Rat) + (natOfDigits d2 : Rat) / (10 : Rat) ^ d2.length

/-- Drops `pre` off the front of `s`, or fails when `pre` is not a prefix. -/
def dropPrefixL : List Char → List Char → Option (List Char)
  | [], s => some s
  | _ :: _, [] => none
  | p :: ps, c :: cs => if p = c then dropPrefixL ps cs else none

/-- Match attempt of the pattern `Iteration ([0-9]+), Testing net ` at one
position (the position itself is chosen by the leading greedy `.*`, see
`matchIterValid`).  The leading space of the literal ` Iteration ` is part of
the regex. -/
def p1At (s : List Char) : Option (List Char) :=
  match dropPrefixL " Iteration ".toList s with
  | none => none
  | some r =>
    let d := r.takeWhile Char.isDigit
    if d.isEmpty then none
    else
      match dropPrefixL ", Testing net ".toList (r.dropWhile Char.isDigit) with
      | none => none
      | some _ => some d

/-- Embeds `re.match(r'.* Iteration ([0-9]+), Testing net .*', line)`:
the greedy leading `.*` selects the last position where the rest of the
pattern matches, and the captured group is the digit run there. -/
def matchIterValid (s : List Char) : Option Nat :=
  ((s.tails.filterMap p1At).getLast?).map natOfDigits

/-- Checks that `s` can be split as `.*iters.*\), loss = .*`, i.e. contains
`iters` followed (possibly after other characters) by `), loss = `. -/
def hasItersThenLoss (s : List Char) : Bool :=
  s.tails.any (fun u =>
    "iters".toList.isPrefixOf u &&
      (u.drop 5).tails.any (fun w => "), loss = ".toList.isPrefixOf w))

/-- Match attempt of `Iteration ([0-9]+) \(.*iters.*\), loss = .*` at one
position. -/
def p3At (s : List Char) : Option (List Char) :=
  match dropPrefixL " Iteration ".toList s with
  | none => none
  | some r =>
    let d := r.takeWhile Char.isDigit
    if d.isEmpty then none
    else
      match dropPrefixL " (".toList (r.dropWhile Char.isDigit) with
      | none => none
      | some r2 => if hasItersThenLoss r2 then some d else none

/-- Embeds `re.match(r'.* Iteration ([0-9]+) \(.*iters.*\), loss = .*', line)`. -/
def matchIterTrain (s : List Char) : Option Nat :=
  ((s.tails.filterMap p3At).getLast?).map natOfDigits

/-- Parses the metric-name group `loss_?x?[0-9]*`: the literal `loss`, an
optional `_`, an optional `x` and a greedy digit run.  Each optional atom is
taken when present; the following literal ` = ` can never start with `_`, `x`
or a digit, so no backtracking into the group is possible. -/
def nameParse (s : List Char) : Option (List Char × List Char) :=
  match dropPrefixL "loss".toList s with
  | none => none
  | some r0 =>
    let (n1, r1) : List Char × List Char :=
      match r0 with
      | '_' :: t => (['_'], t)
      | _ => ([], r0)
    let (n2, r2) : List Char × List Char :=
      match r1 with
      | 'x' :: t => (['x'], t)
      | _ => ([], r1)
    some ("loss".toList ++ n1 ++ n2 ++ r2.takeWhile Char.isDigit,
          r2.dropWhile Char.isDigit)

/-- Parses the value group `([0-9]+(\.[0-9]+)?|nan|-nan)` with the regex's
alternation order: a decimal literal first (greedy digit runs; the fractional
part only when a digit follows the dot), then `nan`, then `-nan`.  `float()`
turns both `nan` spellings into NaN. -/
def valParse (s : List Char) : Option (Val × List Char) :=
  let d1 := s.takeWhile Char.isDigit
  if d1.isEmpty then
    match dropPrefixL "nan".toList s with
    | some r => some (Val.nan, r)
    | none =>
      match dropPrefixL "-nan".toList s with
      | some r => some (Val.nan, r)
      | none => none
  else
    let r1 := s.dropWhile Char.isDigit
    match r1 with
    | '.' :: r2 =>
      let d2 := r2.takeWhile Char.isDigit
      if d2.isEmpty then some (Val.num (ratOfDigits d1 []), r1)
      else some (Val.num (ratOfDigits d1 d2), r2.dropWhile Char.isDigit)
    | _ => some (Val.num (ratOfDigits d1 []), r1)

/-- Match attempt of ` <name> = <value>` (plus, for the Test pattern, the
trailing mandatory space) at one position of the text following the
`net output` literal. -/
def pOutInnerAt (needSpace : Bool) (u : List Char) : Option (List Char × Val) :=
  match u with
  | ' ' :: u1 =>
    match nameParse u1 with
    | none => none
    | some (nm, u2) =>
      match dropPrefixL " = ".toList u2 with
      | none => none
      | some u3 =>
        match valParse u3 with
        | none => none
        | some (v, u4) =>
          if needSpace then
            match u4 with
            | ' ' :: _ => some (nm, v)
            | _ => none
          else some (nm, v)
  | _ => none

/-- Embeds the two metric-line patterns
`.* Test net output .* (loss_?x?[0-9]*) = (...) .*` (with `pre` the literal
` Test net output ` and a mandatory space after the value) and
`.* Train net output .* (loss\_?x?[0-9]*) = (...).*` (no mandatory trailing
space).  Both greedy `.*`s select the last matching positions. -/
def matchNetOutput (pre : List Char) (needSpace : Bool) (s : List Char) :
    Option (List Char × Val) :=
  (s.tails.filterMap (fun t =>
    match dropPrefixL pre t with
    | none => none
    | some r => (r.tails.filterMap (pOutInnerAt needSpace)).getLast?)).getLast?

/-- Accumulated scanner state: the two iteration sequences and the two
per-metric value dictionaries of `LearningCurvePlotter`.  The Python dicts are
embedded as insertion-ordered association lists. -/
structure ScanState where
  iters_valid : List Nat
  losses_valid : List (String × List Val)
  iters_train : List Nat
  losses_train : List (String × List Val)
deriving DecidableEq, Repr

/-- Empty state built by `LearningCurvePlotter.__init__`. -/
def initState : ScanState := ⟨[], [], [], []⟩

/-- Dictionary lookup (`d[k]`, as an `Option`). -/
def alookup {α : Type} : List (String × α) → String → Option α
  | [], _ => none
  | (k', v) :: t, k => if k' = k then some v else alookup t k

/-- Embeds `if k not in d.keys(): d[k] = []` followed by `d[k].append(v)`. -/
def dictAppend (m : List (String × List Val)) (k : String) (v : Val) :
    List (String × List Val) :=
  match m with
  | [] => [(k, [v])]
  | (k', l) :: t => if k' = k then (k', l ++ [v]) :: t else (k', l) :: dictAppend t k v

/-- Embeds the per-line body of `_process_log_file`: the four patterns are
tried in the source's priority order, the first match wins. -/
def processLine (st : ScanState) (line : String) : ScanState :=
  let s := line.toList
  match matchIterValid s with
  | some n => { st with iters_valid := st.iters_valid ++ [n] }
  | none =>
    match matchNetOutput " Test net output ".toList true s with
    | some (nm, v) =>
      { st with losses_valid := dictAppend st.losses_valid (String.mk nm) v }
    | none =>
      match matchIterTrain s with
      | some n => { st with iters_train := st.iters_train ++ [n] }
      | none =>
        match matchNetOutput " Train net output ".toList false s with
        | some (nm, v) =>
          { st with losses_train := dictAppend st.losses_train (String.mk nm) v }
        | none => st

/-- Embeds the full scan of `_process_log_file` over the log's lines. -/
def runScanner (lines : List String) : ScanState :=
  lines.foldl processLine initState

/-! ## Learning curve extractor: plotting and export (`plot_and_save`) -/

/-- Byte-wise lexicographic comparison of strings, as Python compares `str`
values (the image keys and metric names are ASCII). -/
def lexLe : List Char → List Char → Bool
  | [], _ => true
  | _ :: _, [] => false
  | a :: as, b :: bs =>
    if a.toNat < b.toNat then true
    else if b.toNat < a.toNat then false
    else lexLe as bs

/-- String comparison used by `sorted(...)` and `list.sort()`. -/
def strLe (a b : String) : Bool := lexLe a.toList b.toList

/-- Stable insertion of a string into an already sorted list. -/
def insortStr (x : String) : List String → List String
  | [] => [x]
  | y :: ys => if strLe x y then x :: y :: ys else y :: insortStr x ys

/-- Embeds Python's ascending `sorted` on a list of strings. -/
def ssort (l : List String) : List String := l.foldr insortStr []

/-- Embeds `skeys = sorted(self.losses_train.keys())` from `plot_and_save`. -/
def skeysOf (st : ScanState) : List String := ssort (st.losses_train.map Prod.fst)

/-- Embeds the validation-curve plotting loop of `plot_and_save` (lines
150-154): for each metric name in `skeys`, look up
`self.losses_valid[ln]` (a missing key raises `KeyError`) and plot its
sub-sequence from the validation skip index.  The result is the list of
plotted validation series. -/
def plotValidGo (st : ScanState) (si : Nat) :
    List String → Except String (List (String × List Val))
  | [] => .ok []
  | k :: ks =>
    match alookup st.losses_valid k with
    | none => .error ("KeyError: " ++ k)
    | some l => (plotValidGo st si ks).map (fun r => (k, l.drop si) :: r)

/-- Embeds the guarded validation plotting step: the loop above runs only when
`len(self.iters_valid) > 0`.  (The preceding training-curve loop only reads
`self.losses_train[ln]` for `ln` in that dictionary's own keys, so it cannot
fail and is not modelled here.) -/
def plotValid (st : ScanState) (si : Nat) : Except String (List (String × List Val)) :=
  if st.iters_valid.isEmpty then .ok [] else plotValidGo st si (skeysOf st)

/-- `true` on `ok`, `false` on `error`. -/
def exIsOk {ε α : Type} : Except ε α → Bool
  | .ok _ => true
  | .error _ => false

/-- Embeds Python's `list.index(v)` as an `Option`: the index of the first
occurrence, `none` where Python raises `ValueError`. -/
def idxOf? : List Nat → Nat → Option Nat
  | [], _ => none
  | x :: xs, v => if x = v then some 0 else (idxOf? xs v).map (· + 1)

/-- Embeds the per-metric column writes of one CSV row (`plot_and_save`, lines
177-179): for each metric name, `self.losses_train[key][i_train]` and
`self.losses_valid[key][i]`.  A missing key or an out-of-range index raises
(`KeyError`/`IndexError`), which the surrounding `except ValueError` does not
catch. -/
def mkCols (st : ScanState) (it i : Nat) :
    List String → Except String (List (String × Val × Val))
  | [] => .ok []
  | k :: ks =>
    match alookup st.losses_train k with
    | none => .error "KeyError: train"
    | some lt =>
      match lt.get? it with
      | none => .error "IndexError: train"
      | some tv =>
        match alookup st.losses_valid k with
        | none => .error "KeyError: valid"
        | some lv =>
          match lv.get? i with
          | none => .error "IndexError: valid"
          | some vv => (mkCols st it i ks).map (fun cs => (k, tv, vv) :: cs)

/-- Embeds the CSV row loop of `plot_and_save` (lines 173-183) over the
remaining validation iterations, `i` being the absolute position of the head
of `vs` in `iters_valid`: `iters_train.index(...)` failing (`ValueError`) is
caught, the row is skipped and the iteration recorded as a warning; any other
failure aborts.  Returns the written rows and the warned iterations. -/
def exportGo (st : ScanState) (skeys : List String) :
    Nat → List Nat →
      Except String (List (Nat × List (String × Val × Val)) × List Nat)
  | _, [] => .ok ([], [])
  | i, v :: vs =>
    match idxOf? st.iters_train v with
    | none => (exportGo st skeys (i + 1) vs).map (fun rw => (rw.1, v :: rw.2))
    | some it =>
      match mkCols st it i skeys with
      | .error e => .error e
      | .ok cols =>
        (exportGo st skeys (i + 1) vs).map (fun rw => ((v, cols) :: rw.1, rw.2))

/-- Embeds the whole tabular export of `plot_and_save`: one candidate row per
validation iteration, with metric columns in `sorted(losses_train.keys())`
order. -/
def exportCSV (st : ScanState) :
    Except String (List (Nat × List (String × Val × Val)) × List Nat) :=
  exportGo st (skeysOf st) 0 st.iters_valid

/-- Alignment of the training series: every metric key has a training value
list at least as long as the training-iteration sequence (the shape a complete
Caffe training block produces, and what the export's `losses_train[key][i_train]`
lookup presupposes). -/
def trainAligned (st : ScanState) : Bool :=
  (skeysOf st).all (fun k =>
    match alookup st.losses_train k with
    | none => false
    | some lt => decide (st.iters_train.length ≤ lt.length))

/-- Alignment of the validation series: every metric key of the training
dictionary also has a validation value list at least as long as the
validation-iteration sequence (what `losses_valid[key][i]` presupposes). -/
def validAligned (st : ScanState) : Bool :=
  (skeysOf st).all (fun k =>
    match alookup st.losses_valid k with
    | none => false
    | some lv => decide (st.iters_valid.length ≤ lv.length))

/-! ## Detection visualizer (`scripts/detections2images.py`) -/

/-- Embeds `ri(x) = int(round(x))`; Python 2's `round` rounds halves away
from zero. -/
def ri (q : Rat) : Int := if 0 ≤ q then ⌊q + 1 / 2⌋ else ⌈q - 1 / 2⌉

/-- First index at which `sub` occurs in `s`, as an `Option`. -/
def findSub (sub : List Char) : List Char → Option Nat
  | [] => if sub.isEmpty then some 0 else none
  | c :: cs =>
    if (dropPrefixL sub (c :: cs)).isSome then some 0
    else (findSub sub cs).map (· + 1)

/-- Embeds Python's `s.find(sub)`: first index of the substring, `-1` when
absent. -/
def pyFind (s sub : String) : Int :=
  match findSub sub.toList s.toList with
  | some n => (n : Int)
  | none => -1

/-- Characters of `s` from position `n` on (`s[n:]`). -/
def strDrop (s : String) (n : Nat) : String := String.mk (s.toList.drop n)

/-- Embeds `os.path.join(a, b)` for the POSIX paths used here: `b` when `b`
is absolute, otherwise `a` and `b` joined with exactly one separator. -/
def pyJoin (a b : String) : String :=
  if b.toList.head? = some '/' then b
  else if a.toList.isEmpty then b
  else if a.toList.getLast? = some '/' then a ++ b
  else a ++ "/" ++ b

/-- Embeds `get_path_to_image` (detections2images.py lines 58-69), including
the `find('/datasets/') + 1` offset and the resulting always-true `pos >= 0`
guard. -/
def getPathToImage (pathImage : String) (pathDatasets : Option String) : String :=
  match pathDatasets with
  | none => pathImage
  | some root =>
    let pos : Int := pyFind pathImage "/datasets/" + 1
    if 0 ≤ pos then pyJoin root (strDrop pathImage pos.toNat) else pathImage

/-- 2D detection record, with the fields the renderer reads: box corners,
class label and confidence. -/
structure BB2D where
  xmin : Rat
  ymin : Rat
  xmax : Rat
  ymax : Rat
  label : String
  confidence : Rat
deriving DecidableEq, Repr

/-- 3D detection record.  The renderer itself reads only `label` and
`confidence` and passes the record wholesale to the projection-geometry
functions; the cuboid parameters (produced by the external BB3TXT loader,
which is outside this repository) are carried opaquely in `params`. -/
structure BB3D where
  label : String
  confidence : Rat
  params : List Rat
deriving DecidableEq, Repr

/-- Projection-geometry record (the external PGP loader's product, consumed
by `_plot_bboxes`): the camera-centre column `C_3x1` and the reconstruction
and projection mappings, kept abstract as function fields. -/
structure PGP where
  C_3x1 : Rat × Rat × Rat
  reconstruct_bb3d : BB3D → Fin 8 → Rat × Rat × Rat
  project_X_to_x : (Fin 8 → Rat × Rat × Rat) → Fin 8 → Rat × Rat

/-- Colour of a detection: `COLORS[self.detections_mapping[bb.label]]`.  A
label missing from the active mapping or from the colour table raises
`KeyError`. -/
def colorFor (mapping colors : List (String × String)) (label : String) :
    Except String String :=
  match alookup mapping label with
  | none => .error "KeyError: mapping"
  | some m =>
    match alookup colors m with
    | none => .error "KeyError: colors"
    | some c => .ok c

/-- Rectangle drawn for one 2D detection
(`cv2.rectangle(image, (ri(xmin), ri(ymin)), (ri(xmax), ri(ymax)), color, 2)`). -/
structure Rect2D where
  bb : BB2D
  p1 : Int × Int
  p2 : Int × Int
  color : String
deriving DecidableEq, Repr

/-- Embeds the 2D branch of `_plot_bboxes` (lines 186-189): for each detection
with confidence at or above the threshold, look up its colour and draw its
rectangle; detections below the threshold produce nothing. -/
def plotBboxes2D (conf : Rat) (mapping colors : List (String × String)) :
    List BB2D → Except String (List Rect2D)
  | [] => .ok []
  | bb :: bbs =>
    if conf ≤ bb.confidence then
      match colorFor mapping colors bb.label with
      | .error e => .error e
      | .ok c =>
        (plotBboxes2D conf mapping colors bbs).map
          (fun r => ⟨bb, (ri bb.xmin, ri bb.ymin), (ri bb.xmax, ri bb.ymax), c⟩ :: r)
    else plotBboxes2D conf mapping colors bbs

/-- Wireframe drawn for one 3D detection: the reconstructed corners
`X_3x8 = pgp.reconstruct_bb3d(bb)`, their projection
`x_2x8 = pgp.project_X_to_x(X_3x8)` and the class colour used for the
longitudinal edges. -/
structure Draw3D where
  bb : BB3D
  X_3x8 : Fin 8 → Rat × Rat × Rat
  x_2x8 : Fin 8 → Rat × Rat
  color : String

/-- Embeds the 3D branch of `_plot_bboxes` (lines 150-179): for each detection
with confidence at or above the threshold, reconstruct the eight corners,
project them and draw the wireframe in the looked-up class colour. -/
def plotBboxes3D (conf : Rat) (mapping colors : List (String × String)) (pgp : PGP) :
    List BB3D → Except String (List Draw3D)
  | [] => .ok []
  | bb :: bbs =>
    if conf ≤ bb.confidence then
      match colorFor mapping colors bb.label with
      | .error e => .error e
      | .ok c =>
        (plotBboxes3D conf mapping colors pgp bbs).map
          (fun r => ⟨bb, pgp.reconstruct_bb3d bb,
                     pgp.project_X_to_x (pgp.reconstruct_bb3d bb), c⟩ :: r)
    else plotBboxes3D conf mapping colors pgp bbs

/-- Embeds `_create_sorted_sequence`: the detection dictionary's keys sorted
ascending. -/
def fileSequence {α : Type} (dets : List (String × α)) : List String :=
  ssort (dets.map Prod.fst)

/-- Embeds the frame loop of `generate_images` (lines 205-212):
`length = 0; for i in range(n): if i < offset: continue;
if length >= max_length: break; <process frame i>`.  The `length` counter is
initialized to 0 and never incremented anywhere in the loop body of the
source, so the accumulator `len` is passed along unchanged here. -/
def genGo (offset maxLength len : Int) : List Nat → List Nat
  | [] => []
  | i :: is =>
    if (i : Int) < offset then genGo offset maxLength len is
    else if maxLength ≤ len then []
    else i :: genGo offset maxLength len is

/-- Indices of the frames processed by `generate_images`. -/
def processedIndices (n : Nat) (offset maxLength : Int) : List Nat :=
  genGo offset maxLength 0 (List.range n)

/-- Keys of the images processed by `generate_images`, in processing order. -/
def processedKeys {α : Type} (dets : List (String × α)) (offset maxLength : Int) :
    List String :=
  (processedIndices (fileSequence dets).length offset maxLength).filterMap
    (fun i => (fileSequence dets).get? i)

/-- Embeds `os.path.basename` for POSIX paths: the part after the last `/`. -/
def pyBasename (s : String) : String :=
  String.mk ((s.toList.reverse.takeWhile (fun c => c != '/')).reverse)

/-- Output path of one processed image:
`filename_out = os.path.join(path_out, os.path.basename(filename))`
(line 219). -/
def outPath (dir key : String) : String := pyJoin dir (pyBasename key)

/-- Overwriting update of an association-list file system
(`cv2.imwrite(filename_out, image)` replaces an existing file). -/
def assocSet (m : List (String × String)) (k v : String) : List (String × String) :=
  match m with
  | [] => [(k, v)]
  | (k', v') :: t => if k' = k then (k, v) :: t else (k', v') :: assocSet t k v

/-- Write sequence of `generate_images`: one `(output path, source key)` pair
per processed key, in processing order; the content written for a key is its
rendered image, tagged here by the key itself. -/
def writeSeq (dir : String) (keys : List String) : List (String × String) :=
  keys.map (fun k => (outPath dir k, k))

/-- File-system contents after a sequence of writes is applied in order. -/
def finalStore (ws : List (String × String)) : List (String × String) :=
  ws.foldl (fun m w => assocSet m w.1 w.2) []

theorem siAux_eq (skip : Int) :
    ∀ (l : List Nat) (i si : Nat),
      siAux skip l i si =
        if leadLE skip l = 0 then si else i + (leadLE skip l - 1)
  | [], i, si => by simp [siAux, leadLE]
  | x :: xs, i, si => by
    by_cases h : skip < (x : Int)
    · have hx : ¬ (x : Int) ≤ skip := not_le.mpr h
      simp [siAux, leadLE, h, hx]
    · have hx : (x : Int) ≤ skip := not_lt.mp h
      rw [siAux, if_neg h, siAux_eq skip xs (i + 1) i]
      simp only [leadLE, if_pos hx]
      rcases Nat.eq_zero_or_pos (leadLE skip xs) with h0 | hpos
      · simp [h0]
      · rw [if_neg (Nat.pos_iff_ne_zero.mp hpos), if_neg (Nat.succ_ne_zero _)]
        omega

theorem filter_enumFrom_eq_range' (skip : Int) :
    ∀ (l : List Nat) (n : Nat), List.Sorted (· ≤ ·) l →
      ((List.enumFrom n l).filter (fun p => decide ((p.2 : Int) ≤ skip))).map Prod.fst
        = List.range' n (leadLE skip l)
  | [], n, _ => by simp [leadLE]
  | x :: xs, n, hs => by
    rcases List.sorted_cons.mp hs with ⟨hx, hxs⟩
    rw [List.enumFrom_cons]
    by_cases h : (x : Int) ≤ skip
    · rw [List.filter_cons_of_pos (by simpa using h), List.map_cons,
          filter_enumFrom_eq_range' skip xs (n + 1) hxs, leadLE, if_pos h,
          List.range'_succ]
    · rw [List.filter_cons_of_neg (by simpa using h), leadLE, if_neg h]
      have hnil :
          (List.enumFrom (n + 1) xs).filter (fun p => decide ((p.2 : Int) ≤ skip)) = [] := by
        rw [List.filter_eq_nil_iff]
        intro p hp
        have hmem : p.2 ∈ xs := by
          have h2 := List.mem_map_of_mem Prod.snd hp
          rwa [List.enumFrom_map_snd] at h2
        have hge : (x : Int) ≤ (p.2 : Int) := by exact_mod_cast hx _ hmem
        simp only [decide_eq_true_eq]
        intro hc
        exact h (le_trans hge hc)
      rw [hnil]
      rfl

theorem range'_getLast? :
    ∀ (n s : Nat), (List.range' s n).getLast? = if n = 0 then none else some (s + n - 1)
  | 0, s => by simp
  | 1, s => by simp [List.range'_succ]
  | (n + 2), s => by
    rw [List.range'_succ, List.range'_succ, List.getLast?_cons_cons,
        ← List.range'_succ, range'_getLast? (n + 1) (s + 1)]
    simp
    omega

theorem skipIndex_eq_spec (l : List Nat) (skip : Int)
    (hs : List.Sorted (· ≤ ·) l) (hpos : 0 < skip) :
    skipIndex l skip = specStartIndex l skip := by
  rw [skipIndex, if_pos hpos, siAux_eq, specStartIndex]
  have henum : l.enum = List.enumFrom 0 l := rfl
  rw [henum, filter_enumFrom_eq_range' skip l 0 hs, range'_getLast?]
  rcases Nat.eq_zero_or_pos (leadLE skip l) with h0 | hp
  · simp [h0]
  · simp only [if_neg (Nat.pos_iff_ne_zero.mp hp)]
    simp

/-- C3: the claim "with training iterations [10, 20, 30, 40] and skip
threshold 25 the computed start index is 2" is false on the code: the loop
keeps the last index whose value is ≤ 25, which is index 1. -/
theorem c3_start_index_not_two :
    skipIndex [10, 20, 30, 40] 25 = 1 ∧ (skipIndex [10, 20, 30, 40] 25 == 2) = false := by
  decide

/-- C3 (amended): with training iterations [10, 20, 30, 40] and skip
threshold 25, the computed start index is 1, so the plotted sub-sequence
starts at iteration 20. -/
theorem c3_start_index :
    skipIndex [10, 20, 30, 40] 25 = 1 ∧
      (([10, 20, 30, 40] : List Nat).drop (skipIndex [10, 20, 30, 40] 25)).head? = some 20 := by
  decide

/-- C7: for every skip threshold and every non-decreasing training and
validation iteration sequence, the starting index computed by the code is the
last index whose iteration value is ≤ the threshold (default 0), computed
independently for the two sequences; with threshold 0 no skipping occurs. -/
theorem c7_skip_index (itrain ivalid : List Nat) (skip : Int)
    (ht : List.Sorted (· ≤ ·) itrain) (hv : List.Sorted (· ≤ ·) ivalid) :
    (0 < skip →
      skipIndex itrain skip = specStartIndex itrain skip ∧
        skipIndex ivalid skip = specStartIndex ivalid skip) ∧
    (skip = 0 → skipIndex itrain skip = 0 ∧ skipIndex ivalid skip = 0) := by
  refine ⟨fun hpos => ⟨skipIndex_eq_spec _ _ ht hpos, skipIndex_eq_spec _ _ hv hpos⟩, ?_⟩
  rintro rfl
  simp [skipIndex]

/-- C7 witness: the theorem applied at concrete sequences and threshold. -/
theorem c7_skip_index_witness :
    (0 < (25 : Int) →
      skipIndex [10, 20, 30, 40] 25 = specStartIndex [10, 20, 30, 40] 25 ∧
        skipIndex [10, 30] 25 = specStartIndex [10, 30] 25) ∧
    ((25 : Int) = 0 → skipIndex [10, 20, 30, 40] 25 = 0 ∧ skipIndex [10, 30] 25 = 0) :=
  c7_skip_index [10, 20, 30, 40] [10, 30] 25 (by decide) (by decide)

theorem exIsOk_map {ε α β : Type} (f : α → β) (e : Except ε α) :
    exIsOk (e.map f) = exIsOk e := by
  cases e <;> rfl

theorem mem_insortStr (a x : String) (l : List String) :
    a ∈ insortStr x l ↔ a = x ∨ a ∈ l := by
  induction l with
  | nil => simp [insortStr]
  | cons y ys ih =>
    rw [insortStr]
    by_cases h : strLe x y = true
    · simp [h]
    · simp only [if_neg h, List.mem_cons, ih]
      tauto

theorem mem_ssort (a : String) (l : List String) : a ∈ ssort l ↔ a ∈ l := by
  induction l with
  | nil => simp [ssort]
  | cons y ys ih =>
    show a ∈ insortStr y (ssort ys) ↔ _
    rw [mem_insortStr, ih, List.mem_cons]

theorem plotValidGo_error (st : ScanState) (si : Nat) (k : String)
    (hmiss : alookup st.losses_valid k = none) :
    ∀ ks : List String, k ∈ ks → exIsOk (plotValidGo st si ks) = false := by
  intro ks
  induction ks with
  | nil => intro h; cases h
  | cons k' ks ih =>
    intro hk
    rw [plotValidGo]
    cases hl : alookup st.losses_valid k' with
    | none => rfl
    | some l =>
      rcases List.mem_cons.mp hk with rfl | hk'
      · rw [hmiss] at hl; cases hl
      · rw [exIsOk_map]
        exact ih hk'

/-- C4 (counterexample): on the log consisting of a testing-iteration marker,
a training-iteration marker and one Train-metric line for "loss" (and no
Test-metric line), the metric "loss" is missing from the validation
dictionary — not present with an empty sequence — and the validation plotting
loop fails with a key error instead of succeeding. -/
theorem c4_missing_metric_counterexample :
    (alookup (runScanner
        ["solver.cpp:331] Iteration 100, Testing net (#0)",
         "solver.cpp:219] Iteration 30 (0.256841 iter/s, 38.9347s/10 iters), loss = 0.0107558",
         "solver.cpp:238] Train net output #0: loss = 0.0107558"]).losses_train
        "loss").isSome = true ∧
    alookup (runScanner
        ["solver.cpp:331] Iteration 100, Testing net (#0)",
         "solver.cpp:219] Iteration 30 (0.256841 iter/s, 38.9347s/10 iters), loss = 0.0107558",
         "solver.cpp:238] Train net output #0: loss = 0.0107558"]).losses_valid
        "loss" = none ∧
    exIsOk (plotValid (runScanner
        ["solver.cpp:331] Iteration 100, Testing net (#0)",
         "solver.cpp:219] Iteration 30 (0.256841 iter/s, 38.9347s/10 iters), loss = 0.0107558",
         "solver.cpp:238] Train net output #0: loss = 0.0107558"]) 0) = false := by
  decide

/-- C4 (amended): a metric that appears in Train-metric lines but in no
Test-metric line has no validation sequence at all (the key is missing from
the validation dictionary); the plotting step succeeds only when the
validation-iteration sequence is empty (the validation loop is skipped), and
fails with a key error for that metric otherwise. -/
theorem c4_missing_metric (st : ScanState) (si : Nat) (k : String)
    (hk : k ∈ st.losses_train.map Prod.fst)
    (hmiss : alookup st.losses_valid k = none) :
    (st.iters_valid = [] → plotValid st si = .ok []) ∧
    (st.iters_valid ≠ [] → exIsOk (plotValid st si) = false) := by
  constructor
  · intro hemp
    rw [plotValid, hemp]
    rfl
  · intro hne
    have hie : st.iters_valid.isEmpty = false := by
      cases hiv : st.iters_valid with
      | nil => exact absurd hiv hne
      | cons a l => rfl
    rw [plotValid, hie]
    simp only [Bool.false_eq_true, if_neg]
    exact plotValidGo_error st si k hmiss _ ((mem_ssort k _).mpr hk)

/-- C4 witness: the amended theorem applied to the scanner state of the
concrete three-line log above. -/
theorem c4_missing_metric_witness :
    ((runScanner
        ["solver.cpp:331] Iteration 100, Testing net (#0)",
         "solver.cpp:219] Iteration 30 (0.256841 iter/s, 38.9347s/10 iters), loss = 0.0107558",
         "solver.cpp:238] Train net output #0: loss = 0.0107558"]).iters_valid = [] →
      plotValid (runScanner
        ["solver.cpp:331] Iteration 100, Testing net (#0)",
         "solver.cpp:219] Iteration 30 (0.256841 iter/s, 38.9347s/10 iters), loss = 0.0107558",
         "solver.cpp:238] Train net output #0: loss = 0.0107558"]) 0 = .ok []) ∧
    ((runScanner
        ["solver.cpp:331] Iteration 100, Testing net (#0)",
         "solver.cpp:219] Iteration 30 (0.256841 iter/s, 38.9347s/10 iters), loss = 0.0107558",
         "solver.cpp:238] Train net output #0: loss = 0.0107558"]).iters_valid ≠ [] →
      exIsOk (plotValid (runScanner
        ["solver.cpp:331] Iteration 100, Testing net (#0)",
         "solver.cpp:219] Iteration 30 (0.256841 iter/s, 38.9347s/10 iters), loss = 0.0107558",
         "solver.cpp:238] Train net output #0: loss = 0.0107558"]) 0) = false) :=
  c4_missing_metric _ 0 "loss" (by decide) (by decide)

/-- C5 (counterexample): on the log consisting of exactly the two bare lines
`Iteration 100, Testing net (#0)` and `Test net output #0: loss = nan`, the
scanner records nothing at all: both patterns require a character (a space)
before `Iteration`/`Test`, and the Test-metric pattern further requires a
character after the value, so neither line matches and no validation entry
`(100, NaN)` is produced. -/
theorem c5_bare_lines_counterexample :
    runScanner ["Iteration 100, Testing net (#0)",
                "Test net output #0: loss = nan"] = initState := by
  decide

/-- C5 (amended): on the same two log lines in the form the log actually
carries them — prefixed by the solver tag (so a space precedes
`Iteration`/`Test`) and, for the Test line, followed by the usual
`(* 1 = ... loss)` suffix — the scanner appends 100 to the
validation-iteration sequence and NaN (preserved, not coerced to 0 or
dropped) to the validation sequence of metric "loss". -/
theorem c5_prefixed_lines :
    (runScanner ["solver.cpp:331] Iteration 100, Testing net (#0)",
                 "solver.cpp:398] Test net output #0: loss = nan (* 1 = nan loss)"]).iters_valid
        = [100] ∧
    alookup (runScanner
        ["solver.cpp:331] Iteration 100, Testing net (#0)",
         "solver.cpp:398] Test net output #0: loss = nan (* 1 = nan loss)"]).losses_valid
        "loss" = some [Val.nan] := by
  decide

theorem idxOf?_lt_length :
    ∀ (l : List Nat) (v it : Nat), idxOf? l v = some it → it < l.length := by
  intro l
  induction l with
  | nil => intro v it h; cases h
  | cons x xs ih =>
    intro v it h
    rw [idxOf?] at h
    by_cases hx : x = v
    · rw [if_pos hx] at h
      cases h
      simp
    · rw [if_neg hx] at h
      cases hi : idxOf? xs v with
      | none => rw [hi] at h; cases h
      | some it' =>
        rw [hi] at h
        cases h
        exact Nat.succ_lt_succ (ih v it' hi)

theorem idxOf?_get? :
    ∀ (l : List Nat) (v it : Nat), idxOf? l v = some it → l.get? it = some v := by
  intro l
  induction l with
  | nil => intro v it h; cases h
  | cons x xs ih =>
    intro v it h
    rw [idxOf?] at h
    by_cases hx : x = v
    · rw [if_pos hx] at h
      cases h
      simp [hx]
    · rw [if_neg hx] at h
      cases hi : idxOf? xs v with
      | none => rw [hi] at h; cases h
      | some it' =>
        rw [hi] at h
        cases h
        simpa using ih v it' hi

theorem idxOf?_least :
    ∀ (l : List Nat) (v it : Nat), idxOf? l v = some it →
      ∀ j, j < it → l.get? j ≠ some v := by
  intro l
  induction l with
  | nil => intro v it h; cases h
  | cons x xs ih =>
    intro v it h j hj
    rw [idxOf?] at h
    by_cases hx : x = v
    · rw [if_pos hx] at h
      cases h
      cases hj
    · rw [if_neg hx] at h
      cases hi : idxOf? xs v with
      | none => rw [hi] at h; cases h
      | some it' =>
        rw [hi] at h
        cases h
        cases j with
        | zero =>
          simp only [List.get?]
          intro hc
          exact hx (Option.some.inj hc)
        | succ j' =>
          simpa using ih v it' hi j' (Nat.lt_of_succ_lt_succ hj)

theorem idxOf?_isSome (l : List Nat) (v : Nat) :
    (idxOf? l v).isSome = decide (v ∈ l) := by
  induction l with
  | nil => simp [idxOf?]
  | cons x xs ih =>
    rw [idxOf?]
    by_cases h : x = v
    · simp [h]
    · rw [if_neg h]
      have hmap : ((idxOf? xs v).map (· + 1)).isSome = (idxOf? xs v).isSome := by
        cases idxOf? xs v <;> rfl
      have hx : ¬ v = x := fun hh => h hh.symm
      rw [hmap, ih]
      simp [List.mem_cons, hx]

theorem trainAligned_spec (st : ScanState) (h : trainAligned st = true) :
    ∀ k ∈ skeysOf st, ∃ lt, alookup st.losses_train k = some lt ∧
      st.iters_train.length ≤ lt.length := by
  intro k hk
  have hall := (List.all_eq_true.mp h) k hk
  cases hl : alookup st.losses_train k with
  | none => rw [hl] at hall; cases hall
  | some lt =>
    rw [hl] at hall
    exact ⟨lt, rfl, by simpa using hall⟩

theorem validAligned_spec (st : ScanState) (h : validAligned st = true) :
    ∀ k ∈ skeysOf st, ∃ lv, alookup st.losses_valid k = some lv ∧
      st.iters_valid.length ≤ lv.length := by
  intro k hk
  have hall := (List.all_eq_true.mp h) k hk
  cases hl : alookup st.losses_valid k with
  | none => rw [hl] at hall; cases hall
  | some lv =>
    rw [hl] at hall
    exact ⟨lv, rfl, by simpa using hall⟩

theorem mkCols_ok (st : ScanState) (it i : Nat) :
    ∀ ks : List String,
      (∀ k ∈ ks, ∃ lt, alookup st.losses_train k = some lt ∧ it < lt.length) →
      (∀ k ∈ ks, ∃ lv, alookup st.losses_valid k = some lv ∧ i < lv.length) →
      ∃ cols, mkCols st it i ks = .ok cols ∧
        ∀ c ∈ cols, ∃ lt, alookup st.losses_train c.1 = some lt ∧
          lt.get? it = some c.2.1 := by
  intro ks
  induction ks with
  | nil => exact fun _ _ => ⟨[], rfl, by simp⟩
  | cons k ks ih =>
    intro hT hV
    obtain ⟨lt, hlt, hitlen⟩ := hT k (List.mem_cons_self k ks)
    obtain ⟨lv, hlv, hilen⟩ := hV k (List.mem_cons_self k ks)
    obtain ⟨cols, hcols, hprop⟩ :=
      ih (fun k' hk' => hT k' (List.mem_cons_of_mem _ hk'))
        (fun k' hk' => hV k' (List.mem_cons_of_mem _ hk'))
    have hg1 : lt.get? it = some (lt.get ⟨it, hitlen⟩) := List.get?_eq_get hitlen
    have hg2 : lv.get? i = some (lv.get ⟨i, hilen⟩) := List.get?_eq_get hilen
    refine ⟨(k, lt.get ⟨it, hitlen⟩, lv.get ⟨i, hilen⟩) :: cols, ?_, ?_⟩
    · rw [mkCols]
      simp only [hlt, hg1, hlv, hg2, hcols]
      rfl
    · intro c hc
      rcases List.mem_cons.mp hc with rfl | hc'
      · exact ⟨lt, hlt, hg1⟩
      · exact hprop c hc'

theorem exportGo_spec (st : ScanState) (skeys : List String)
    (hT : ∀ k ∈ skeys, ∃ lt, alookup st.losses_train k = some lt ∧
      st.iters_train.length ≤ lt.length) :
    ∀ (vs : List Nat) (i : Nat),
      (∀ k ∈ skeys, ∃ lv, alookup st.losses_valid k = some lv ∧
        i + vs.length ≤ lv.length) →
      ∃ rows warns, exportGo st skeys i vs = .ok (rows, warns)
        ∧ rows.map Prod.fst = vs.filter (fun v => (idxOf? st.iters_train v).isSome)
        ∧ warns = vs.filter (fun v => !(idxOf? st.iters_train v).isSome)
        ∧ ∀ r ∈ rows, ∃ it, idxOf? st.iters_train r.1 = some it ∧
            ∀ c ∈ r.2, ∃ lt, alookup st.losses_train c.1 = some lt ∧
              lt.get? it = some c.2.1 := by
  intro vs
  induction vs with
  | nil => exact fun i _ => ⟨[], [], rfl, by simp, by simp, by simp⟩
  | cons v vs ih =>
    intro i hV
    obtain ⟨rows, warns, hgo, hmap, hwarn, hprop⟩ :=
      ih (i + 1) (fun k hk => by
        obtain ⟨lv, h1, h2⟩ := hV k hk
        exact ⟨lv, h1, by simp only [List.length_cons] at h2; omega⟩)
    cases hidx : idxOf? st.iters_train v with
    | none =>
      refine ⟨rows, v :: warns, ?_, ?_, ?_, hprop⟩
      · rw [exportGo, hidx, hgo]
        rfl
      · rw [hmap, List.filter_cons, hidx]
        rfl
      · rw [hwarn, List.filter_cons, hidx]
        rfl
    | some it =>
      have hitl : it < st.iters_train.length := idxOf?_lt_length _ _ _ hidx
      obtain ⟨cols, hcols, hcprop⟩ :=
        mkCols_ok st it i skeys
          (fun k hk => by
            obtain ⟨lt, h1, h2⟩ := hT k hk
            exact ⟨lt, h1, lt_of_lt_of_le hitl h2⟩)
          (fun k hk => by
            obtain ⟨lv, h1, h2⟩ := hV k hk
            exact ⟨lv, h1, by simp only [List.length_cons] at h2; omega⟩)
      refine ⟨(v, cols) :: rows, warns, ?_, ?_, ?_, ?_⟩
      · rw [exportGo]
        simp only [hidx, hcols, hgo]
        rfl
      · rw [List.map_cons, hmap, List.filter_cons, hidx]
        rfl
      · rw [hwarn, List.filter_cons, hidx]
        rfl
      · intro r hr
        rcases List.mem_cons.mp hr with rfl | hr'
        · exact ⟨it, hidx, hcprop⟩
        · exact hprop r hr'

/-- C8: for every aligned scanner state, the tabular export succeeds and
writes one row per validation iteration whose number occurs in the training
sequence (in order, with the training value recorded at that iteration for
each metric); a validation iteration absent from the training sequence yields
no row but a warning, and all other validation iterations still yield their
rows. -/
theorem c8_export_rows (st : ScanState)
    (hT : trainAligned st = true) (hV : validAligned st = true) :
    ∃ rows warns, exportCSV st = .ok (rows, warns)
      ∧ rows.map Prod.fst = st.iters_valid.filter (fun v => decide (v ∈ st.iters_train))
      ∧ warns = st.iters_valid.filter (fun v => !decide (v ∈ st.iters_train))
      ∧ ∀ r ∈ rows, ∃ it, idxOf? st.iters_train r.1 = some it
          ∧ st.iters_train.get? it = some r.1
          ∧ ∀ c ∈ r.2, ∃ lt, alookup st.losses_train c.1 = some lt ∧
              lt.get? it = some c.2.1 := by
  obtain ⟨rows, warns, hgo, hmap, hwarn, hprop⟩ :=
    exportGo_spec st (skeysOf st) (trainAligned_spec st hT) st.iters_valid 0
      (fun k hk => by
        obtain ⟨lv, h1, h2⟩ := validAligned_spec st hV k hk
        exact ⟨lv, h1, by simpa using h2⟩)
  refine ⟨rows, warns, hgo, ?_, ?_, ?_⟩
  · rw [hmap]
    exact List.filter_congr (fun v _ => by rw [idxOf?_isSome])
  · rw [hwarn]
    exact List.filter_congr (fun v _ => by rw [idxOf?_isSome])
  · intro r hr
    obtain ⟨it, hidx, hc⟩ := hprop r hr
    exact ⟨it, hidx, idxOf?_get? _ _ _ hidx, hc⟩

/-- C8 witness: the export of a concrete aligned state whose validation
iteration 50 is missing from the training sequence while 100 is present. -/
theorem c8_export_rows_witness :
    ∃ rows warns,
      exportCSV ⟨[50, 100], [("loss", [Val.num 5, Val.num 6])],
                 [100], [("loss", [Val.num 1])]⟩ = .ok (rows, warns)
      ∧ rows.map Prod.fst =
          ([50, 100] : List Nat).filter (fun v => decide (v ∈ ([100] : List Nat)))
      ∧ warns = ([50, 100] : List Nat).filter (fun v => !decide (v ∈ ([100] : List Nat)))
      ∧ ∀ r ∈ rows, ∃ it, idxOf? [100] r.1 = some it
          ∧ ([100] : List Nat).get? it = some r.1
          ∧ ∀ c ∈ r.2, ∃ lt,
              alookup ([("loss", [Val.num 1])] : List (String × List Val)) c.1 = some lt ∧
                lt.get? it = some c.2.1 :=
  c8_export_rows ⟨[50, 100], [("loss", [Val.num 5, Val.num 6])],
                  [100], [("loss", [Val.num 1])]⟩ (by decide) (by decide)

/-- C10: in the tabular export of an aligned state, when a validation
iteration number occurs more than once in the training iteration sequence,
the training values written in its row are those recorded at the first
(smallest-index) occurrence of that number in the training sequence. -/
theorem c10_first_occurrence (st : ScanState)
    (hT : trainAligned st = true) (hV : validAligned st = true)
    (v : Nat) (cols : List (String × Val × Val))
    (rows : List (Nat × List (String × Val × Val))) (warns : List Nat)
    (hexp : exportCSV st = .ok (rows, warns))
    (hrow : (v, cols) ∈ rows)
    (hdup : 2 ≤ st.iters_train.count v) :
    ∃ it, idxOf? st.iters_train v = some it
      ∧ st.iters_train.get? it = some v
      ∧ (∀ j, j < it → st.iters_train.get? j ≠ some v)
      ∧ ∀ c ∈ cols, ∃ lt, alookup st.losses_train c.1 = some lt ∧
          lt.get? it = some c.2.1 := by
  obtain ⟨rows', warns', hgo, hmap, hwarn, hprop⟩ :=
    exportGo_spec st (skeysOf st) (trainAligned_spec st hT) st.iters_valid 0
      (fun k hk => by
        obtain ⟨lv, h1, h2⟩ := validAligned_spec st hV k hk
        exact ⟨lv, h1, by simpa using h2⟩)
  rw [exportCSV, hgo] at hexp
  obtain ⟨hr, _⟩ := Prod.mk.injEq .. ▸ (Except.ok.inj hexp)
  obtain ⟨it, hidx, hc⟩ := hprop (v, cols) (by rw [hr]; exact hrow)
  exact ⟨it, hidx, idxOf?_get? _ _ _ hidx, idxOf?_least _ _ _ hidx, hc⟩

/-- C10 witness: a concrete state whose training sequence contains iteration
100 twice; the exported row for validation iteration 100 takes the training
value at the first occurrence (index 0, value 1). -/
theorem c10_first_occurrence_witness :
    ∃ it, idxOf? [100, 100] 100 = some it
      ∧ ([100, 100] : List Nat).get? it = some 100
      ∧ (∀ j, j < it → ([100, 100] : List Nat).get? j ≠ some 100)
      ∧ ∀ c ∈ ([("loss", Val.num 1, Val.num 7)] : List (String × Val × Val)),
          ∃ lt, alookup ([("loss", [Val.num 1, Val.num 2])] : List (String × List Val)) c.1
              = some lt ∧ lt.get? it = some c.2.1 :=
  c10_first_occurrence
    ⟨[100], [("loss", [Val.num 7])], [100, 100], [("loss", [Val.num 1, Val.num 2])]⟩
    (by decide) (by decide) 100 [("loss", Val.num 1, Val.num 7)]
    [(100, [("loss", Val.num 1, Val.num 7)])] [] (by rfl) (by decide) (by decide)

/-- C1: the claim that `generate_images` processes exactly the sorted-key
sub-slice `[offset, offset+length)` fails on the code: the `length` counter is
never incremented, so the break never fires for a positive bound and every key
from `offset` on is processed.  With two keys, offset 0 and length 1, both
keys (sorted indices 0 and 1, though index 1 ≥ offset+length) are processed;
the clipping part of the claim (offset beyond the key count yields an empty
slice) does hold. -/
theorem c1_length_never_incremented :
    processedIndices 2 0 1 = [0, 1] ∧
    processedKeys [("b/x.png", ([] : List BB2D)), ("a/y.png", [])] 0 1
        = ["a/y.png", "b/x.png"] ∧
    processedIndices 2 5 3 = [] := by
  decide

theorem dropPrefixL_some :
    ∀ (pre s r : List Char), dropPrefixL pre s = some r → s = pre ++ r := by
  intro pre
  induction pre with
  | nil =>
    intro s r h
    cases h
    rfl
  | cons p ps ih =>
    intro s r h
    cases s with
    | nil => cases h
    | cons c cs =>
      rw [dropPrefixL] at h
      by_cases hpc : p = c
      · rw [if_pos hpc] at h
        rw [← hpc, List.cons_append]
        exact congrArg (p :: ·) (ih cs r h)
      · rw [if_neg hpc] at h
        cases h

theorem findSub_prefix (sub : List Char) :
    ∀ (l : List Char) (p : Nat), findSub sub l = some p →
      l.drop p = sub ++ l.drop (p + sub.length) := by
  intro l
  induction l with
  | nil =>
    intro p h
    rw [findSub] at h
    by_cases he : sub.isEmpty
    · rw [if_pos he] at h
      cases h
      rw [List.isEmpty_iff.mp he]
      rfl
    · rw [if_neg he] at h
      cases h
  | cons c cs ih =>
    intro p h
    rw [findSub] at h
    by_cases hs : (dropPrefixL sub (c :: cs)).isSome
    · rw [if_pos hs] at h
      cases h
      obtain ⟨r, hr⟩ := Option.isSome_iff_exists.mp hs
      have heq := dropPrefixL_some sub (c :: cs) r hr
      rw [List.drop_zero, Nat.zero_add, heq, List.drop_left]
    · rw [if_neg hs] at h
      cases hfs : findSub sub cs with
      | none => rw [hfs] at h; cases h
      | some p' =>
        rw [hfs] at h
        cases h
        have hih := ih p' hfs
        rw [List.drop_succ_cons, hih, Nat.add_right_comm, List.drop_succ_cons]

/-- C2 (counterexample): on the image path `/mnt/data/datasets/kitti/img.png`
with configured root `/local/datasets`, the substitution keeps the
`datasets/` component (it strips only up to the slash that begins the
marker), so the result is not the root joined with the portion following the
marker. -/
theorem c2_marker_kept_counterexample :
    getPathToImage "/mnt/data/datasets/kitti/img.png" (some "/local/datasets")
        = "/local/datasets/datasets/kitti/img.png" ∧
    (getPathToImage "/mnt/data/datasets/kitti/img.png" (some "/local/datasets")
        == pyJoin "/local/datasets" "kitti/img.png") = false := by
  decide

/-- C2 (amended): for every image path containing the marker `/datasets/`
(first occurrence at index `p`) and every configured root, the substitution
replaces everything up to and including the slash that begins the marker, so
the resolved path is the root joined with `datasets/` followed by the portion
of the original path after the marker. -/
theorem c2_substitution (s root : String) (p : Nat)
    (h : findSub "/datasets/".toList s.toList = some p) :
    getPathToImage s (some root)
      = pyJoin root (String.mk ("datasets/".toList ++ s.toList.drop (p + 10))) := by
  have hdrop := findSub_prefix "/datasets/".toList s.toList p h
  have hd1 : s.toList.drop (p + 1) = "datasets/".toList ++ s.toList.drop (p + 10) := by
    have e1 : (s.toList.drop p).drop 1 = s.toList.drop (p + 1) := by
      rw [List.drop_drop, Nat.add_comm]
    rw [← e1, hdrop]
    rfl
  show (if 0 ≤ pyFind s "/datasets/" + 1 then
          pyJoin root (strDrop s (pyFind s "/datasets/" + 1).toNat) else s) = _
  rw [pyFind, h]
  rw [if_pos (by omega : (0 : Int) ≤ (p : Int) + 1)]
  have ht : ((p : Int) + 1).toNat = p + 1 := by omega
  rw [ht, strDrop, hd1]

/-- C2 witness: the amended theorem at the concrete path and root. -/
theorem c2_substitution_witness :
    getPathToImage "/mnt/data/datasets/kitti/img.png" (some "/local")
      = pyJoin "/local" (String.mk ("datasets/".toList
          ++ "/mnt/data/datasets/kitti/img.png".toList.drop 19)) :=
  c2_substitution "/mnt/data/datasets/kitti/img.png" "/local" 9 (by decide)

theorem plotBboxes2D_spec (t : Rat) (mapping colors : List (String × String)) :
    ∀ bbs : List BB2D,
      (∀ bb ∈ bbs, t ≤ bb.confidence →
        exIsOk (colorFor mapping colors bb.label) = true) →
      ∃ l, plotBboxes2D t mapping colors bbs = .ok l ∧
        l.map Rect2D.bb = bbs.filter (fun bb => decide (t ≤ bb.confidence)) := by
  intro bbs
  induction bbs with
  | nil => exact fun _ => ⟨[], rfl, rfl⟩
  | cons bb bbs ih =>
    intro h
    obtain ⟨l, hl, hmap⟩ := ih (fun b hb => h b (List.mem_cons_of_mem _ hb))
    by_cases hc : t ≤ bb.confidence
    · have hcol := h bb (List.mem_cons_self bb bbs) hc
      cases hcf : colorFor mapping colors bb.label with
      | error e => rw [hcf] at hcol; cases hcol
      | ok c =>
        refine ⟨⟨bb, (ri bb.xmin, ri bb.ymin), (ri bb.xmax, ri bb.ymax), c⟩ :: l, ?_, ?_⟩
        · rw [plotBboxes2D, if_pos hc]
          simp only [hcf, hl]
          rfl
        · rw [List.map_cons, hmap, List.filter_cons]
          simp [hc]
    · refine ⟨l, ?_, ?_⟩
      · rw [plotBboxes2D, if_neg hc]
        exact hl
      · rw [hmap, List.filter_cons]
        simp [hc]

theorem plotBboxes3D_spec (t : Rat) (mapping colors : List (String × String)) (pgp : PGP) :
    ∀ bbs : List BB3D,
      (∀ bb ∈ bbs, t ≤ bb.confidence →
        exIsOk (colorFor mapping colors bb.label) = true) →
      ∃ l, plotBboxes3D t mapping colors pgp bbs = .ok l ∧
        l.map Draw3D.bb = bbs.filter (fun bb => decide (t ≤ bb.confidence)) := by
  intro bbs
  induction bbs with
  | nil => exact fun _ => ⟨[], rfl, rfl⟩
  | cons bb bbs ih =>
    intro h
    obtain ⟨l, hl, hmap⟩ := ih (fun b hb => h b (List.mem_cons_of_mem _ hb))
    by_cases hc : t ≤ bb.confidence
    · have hcol := h bb (List.mem_cons_self bb bbs) hc
      cases hcf : colorFor mapping colors bb.label with
      | error e => rw [hcf] at hcol; cases hcol
      | ok c =>
        refine ⟨⟨bb, pgp.reconstruct_bb3d bb,
                 pgp.project_X_to_x (pgp.reconstruct_bb3d bb), c⟩ :: l, ?_, ?_⟩
        · rw [plotBboxes3D, if_pos hc]
          simp only [hcf, hl]
          rfl
        · rw [List.map_cons, hmap, List.filter_cons]
          simp [hc]
    · refine ⟨l, ?_, ?_⟩
      · rw [plotBboxes3D, if_neg hc]
        exact hl
      · rw [hmap, List.filter_cons]
        simp [hc]

/-- C6: in both renderer modes, for every confidence threshold and every
detection list whose above-threshold labels have configured colours, the
drawn boxes are exactly the detections with confidence at or above the
threshold (in order), and none below it. -/
theorem c6_threshold_filter (t : Rat) (mapping colors : List (String × String))
    (bbs2 : List BB2D) (pgp : PGP) (bbs3 : List BB3D)
    (h2 : ∀ bb ∈ bbs2, t ≤ bb.confidence →
      exIsOk (colorFor mapping colors bb.label) = true)
    (h3 : ∀ bb ∈ bbs3, t ≤ bb.confidence →
      exIsOk (colorFor mapping colors bb.label) = true) :
    (∃ l2, plotBboxes2D t mapping colors bbs2 = .ok l2 ∧
      l2.map Rect2D.bb = bbs2.filter (fun bb => decide (t ≤ bb.confidence))) ∧
    (∃ l3, plotBboxes3D t mapping colors pgp bbs3 = .ok l3 ∧
      l3.map Draw3D.bb = bbs3.filter (fun bb => decide (t ≤ bb.confidence))) :=
  ⟨plotBboxes2D_spec t mapping colors bbs2 h2,
   plotBboxes3D_spec t mapping colors pgp bbs3 h3⟩

/-- C6 witness: the theorem at threshold 1 on one above-threshold and one
below-threshold detection in each mode. -/
theorem c6_threshold_filter_witness :
    (∃ l2, plotBboxes2D 1 [("car", "car")] [("car", "#3399FF")]
            [⟨0, 0, 10, 10, "car", 2⟩, ⟨0, 0, 5, 5, "car", 0⟩] = .ok l2 ∧
      l2.map Rect2D.bb =
        ([⟨0, 0, 10, 10, "car", 2⟩, ⟨0, 0, 5, 5, "car", 0⟩] : List BB2D).filter
          (fun bb => decide ((1 : Rat) ≤ bb.confidence))) ∧
    (∃ l3, plotBboxes3D 1 [("car", "car")] [("car", "#3399FF")]
            ⟨(0, 0, 0), fun _ _ => (0, 0, 0), fun _ _ => (0, 0)⟩
            [⟨"car", 2, []⟩, ⟨"car", 0, []⟩] = .ok l3 ∧
      l3.map Draw3D.bb =
        ([⟨"car", 2, []⟩, ⟨"car", 0, []⟩] : List BB3D).filter
          (fun bb => decide ((1 : Rat) ≤ bb.confidence))) :=
  c6_threshold_filter 1 [("car", "car")] [("car", "#3399FF")]
    [⟨0, 0, 10, 10, "car", 2⟩, ⟨0, 0, 5, 5, "car", 0⟩]
    ⟨(0, 0, 0), fun _ _ => (0, 0, 0), fun _ _ => (0, 0)⟩
    [⟨"car", 2, []⟩, ⟨"car", 0, []⟩] (by decide) (by decide)

theorem alookup_assocSet (m : List (String × String)) (k v p : String) :
    alookup (assocSet m k v) p = if k = p then some v else alookup m p := by
  induction m with
  | nil => simp [assocSet, alookup]
  | cons kv t ih =>
    obtain ⟨k', v'⟩ := kv
    rw [assocSet]
    by_cases h : k' = k
    · subst h
      rw [if_pos rfl, alookup, alookup]
      by_cases hp : k' = p <;> simp [hp]
    · rw [if_neg h, alookup, alookup]
      by_cases hp : k' = p
      · have hkp : ¬ k = p := fun hh => h (hp.symm ▸ hh ▸ rfl)
        simp [hp, hkp]
      · simp [hp, ih]

theorem find?_append_some {α : Type} (l1 l2 : List α) (f : α → Bool) (x : α)
    (h : l1.find? f = some x) : (l1 ++ l2).find? f = some x := by
  rw [List.find?_append, h]
  rfl

theorem find?_append_none {α : Type} (l1 l2 : List α) (f : α → Bool)
    (h : l1.find? f = none) : (l1 ++ l2).find? f = l2.find? f := by
  rw [List.find?_append, h]
  rfl

theorem alookup_finalStore_aux :
    ∀ (ws m : List (String × String)) (p : String),
      alookup (ws.foldl (fun acc w => assocSet acc w.1 w.2) m) p
        = match ws.reverse.find? (fun w => decide (w.1 = p)) with
          | some w => some w.2
          | none => alookup m p := by
  intro ws
  induction ws with
  | nil => intro m p; rfl
  | cons w ws ih =>
    intro m p
    rw [List.foldl_cons, ih, List.reverse_cons]
    cases hf : ws.reverse.find? (fun w => decide (w.1 = p)) with
    | some x => rw [find?_append_some _ _ _ _ hf]
    | none =>
      rw [find?_append_none _ _ _ hf, alookup_assocSet]
      by_cases hp : w.1 = p
      · rw [if_pos hp, List.find?_cons_of_pos _ (by simpa using hp)]
      · rw [if_neg hp, List.find?_cons_of_neg _ (by simpa using hp)]
        rfl

theorem filter_getLast?_eq_find?_reverse {α : Type} (f : α → Bool) :
    ∀ l : List α, (l.filter f).getLast? = l.reverse.find? f := by
  intro l
  induction l with
  | nil => rfl
  | cons a l ih =>
    rw [List.filter_cons, List.reverse_cons]
    cases hf : l.reverse.find? f with
    | some x =>
      rw [find?_append_some _ _ _ _ hf]
      have hfl : (l.filter f).getLast? = some x := by rw [ih, hf]
      by_cases ha : f a = true
      · rw [if_pos ha]
        cases hfe : l.filter f with
        | nil => rw [hfe] at hfl; cases hfl
        | cons y ty =>
          rw [hfe] at hfl
          rw [List.getLast?_cons_cons]
          exact hfl
      · rw [if_neg ha]
        exact hfl
    | none =>
      rw [find?_append_none _ _ _ hf]
      have hfl : (l.filter f).getLast? = none := by rw [ih, hf]
      have hfe : l.filter f = [] := List.getLast?_eq_none_iff.mp hfl
      by_cases ha : f a = true
      · rw [if_pos ha, hfe, List.find?_cons_of_pos _ ha]
        rfl
      · rw [if_neg ha, hfe, List.find?_cons_of_neg _ (by simpa using ha)]
        rfl

/-- C9: every processed image is written under the output directory using
only the base filename of its source key, so two distinct keys with the same
base filename share one output path, and after all writes the file at that
path holds the rendering of the key processed last among those sharing it
(the later processing overwrites the earlier one). -/
theorem c9_same_basename_overwrites (dir : String) (keys : List String)
    (k1 k2 : String) (h1 : k1 ∈ keys) (h2 : k2 ∈ keys) (hne : k1 ≠ k2)
    (hbase : pyBasename k1 = pyBasename k2) :
    outPath dir k1 = outPath dir k2 ∧
    ∃ klast,
      (keys.filter (fun k => decide (outPath dir k = outPath dir k1))).getLast?
          = some klast ∧
      alookup (finalStore (writeSeq dir keys)) (outPath dir k1) = some klast := by
  have hout : outPath dir k1 = outPath dir k2 := by rw [outPath, outPath, hbase]
  refine ⟨hout, ?_⟩
  have hmem : k1 ∈ keys.filter (fun k => decide (outPath dir k = outPath dir k1)) :=
    List.mem_filter.mpr ⟨h1, by simp⟩
  obtain ⟨klast, hlast⟩ :
      ∃ x, (keys.filter (fun k => decide (outPath dir k = outPath dir k1))).getLast?
        = some x := by
    cases hq : (keys.filter (fun k => decide (outPath dir k = outPath dir k1))).getLast? with
    | none =>
      rw [List.getLast?_eq_none_iff.mp hq] at hmem
      cases hmem
    | some x => exact ⟨x, rfl⟩
  refine ⟨klast, hlast, ?_⟩
  rw [finalStore, alookup_finalStore_aux, writeSeq, ← List.map_reverse, List.find?_map]
  have hcomp : ((fun w : String × String => decide (w.1 = outPath dir k1)) ∘
      (fun k => (outPath dir k, k))) = fun k => decide (outPath dir k = outPath dir k1) :=
    rfl
  rw [hcomp, ← filter_getLast?_eq_find?_reverse, hlast]
  rfl

/-- C9 witness: two keys differing only in their directory map to the same
output file, which finally holds the image of the later-processed key. -/
theorem c9_same_basename_overwrites_witness :
    outPath "out" "a/x.png" = outPath "out" "b/x.png" ∧
    ∃ klast,
      ((["a/x.png", "b/x.png"] : List String).filter
          (fun k => decide (outPath "out" k = outPath "out" "a/x.png"))).getLast?
          = some klast ∧
      alookup (finalStore (writeSeq "out" ["a/x.png", "b/x.png"]))
          (outPath "out" "a/x.png") = some klast :=
  c9_same_basename_overwrites "out" ["a/x.png", "b/x.png"] "a/x.png" "b/x.png"
    (by decide) (by decide) (by decide) (by decide)
